import Mathlib

/-!
Verification of the stock-reallocation engine implemented twice in this
repository: `app.py` (Flask upload handler, RF-surplus sourcing capped at
20% of stock+pending) and `streamlit_app.py` (`process_data`, no cap).
The two files share the normalizer, demand derivation, candidate
classifier, greedy matcher and aggregator verbatim; the matcher is
therefore embedded once, parameterized by the RF-surplus transferable
quantity function (`appRfT` / `slRfT`).

Counter values flow through the matcher as rationals, mirroring the
Python floats that arise from the `0.2` multiplier in `app.py`
(the float literal `0.2` is modelled as the exact rational `1/5`);
in `streamlit_app.py` every value stays integral. `int()` / `astype(int)`
truncation toward zero is `pyInt`.
-/

set_option linter.unnecessarySeqFocus false

namespace Realloc

/-- Python `int(x)` and pandas `astype(int)`: truncation toward zero. -/
def pyInt (q : ℚ) : ℤ := if 0 ≤ q then ⌊q⌋ else -⌊-q⌋

/-- A normalized table row (the dataframe after the preprocessing block,
app.py lines 30-51 / streamlit_app.py lines 8-29).  `Effective Sold Qty`
is a pure function of the row (`effSold`) rather than a stored column. -/
structure Row where
  article : String
  om : String
  site : String
  rpType : String
  netStock : ℤ
  pending : ℤ
  safety : ℤ
  lastMonth : ℤ
  mtd : ℤ
  notes : String
  productDesc : String
deriving DecidableEq, Repr

/-- A raw input row.  A numeric cell is `none` when the spreadsheet cell is
missing or `pd.to_numeric(errors='coerce')` fails on it; a string cell is
`none` when missing (pandas NaN). `Article` is read with `dtype=str`. -/
structure RawRow where
  article : String
  om : Option String
  rpType : Option String
  site : Option String
  netStock : Option ℚ
  pending : Option ℚ
  safety : Option ℚ
  lastMonth : Option ℚ
  mtd : Option ℚ
  productDesc : Option String
deriving DecidableEq, Repr

/-- `pd.to_numeric(col, errors='coerce').fillna(0).astype(int)`
(app.py lines 31-33 / streamlit_app.py lines 9-11). -/
def normNum (c : Option ℚ) : ℤ := pyInt (c.getD 0)

/-- The Notes flag appended when a sales value exceeds 100000. -/
def salesFlag : String := "銷量數據超出範圍 "

/-- For the two sold-quantity columns: negatives to 0, then clamp at
100000, reporting whether the flag was appended
(app.py lines 44-48 / streamlit_app.py lines 22-26). -/
def clampSold (v : ℤ) : ℤ × Bool :=
  let v1 := if v < 0 then 0 else v
  if 100000 < v1 then (100000, true) else (v1, false)

/-- The whole normalizer on one row (app.py lines 30-48 /
streamlit_app.py lines 8-26).  `df['Notes'] = ''` resets Notes before the
clamping loop, so Notes never survives from the input. -/
def normalizeRow (r : RawRow) : Row :=
  let lm := clampSold (normNum r.lastMonth)
  let md := clampSold (normNum r.mtd)
  { article := r.article
    om := r.om.getD ""
    rpType := r.rpType.getD ""
    site := r.site.getD ""
    netStock := normNum r.netStock
    pending := normNum r.pending
    safety := normNum r.safety
    lastMonth := lm.1
    mtd := md.1
    notes := (if lm.2 then salesFlag else "") ++ (if md.2 then salesFlag else "")
    productDesc := r.productDesc.getD "" }

def normalizeTable (t : List RawRow) : List Row := t.map normalizeRow

/-- Re-reading a normalized table: every cell is present and parses as the
number it holds.  Used to state normalization idempotence. -/
def rowToRaw (r : Row) : RawRow :=
  { article := r.article
    om := some r.om
    rpType := some r.rpType
    site := some r.site
    netStock := some (r.netStock : ℚ)
    pending := some (r.pending : ℚ)
    safety := some (r.safety : ℚ)
    lastMonth := some (r.lastMonth : ℚ)
    mtd := some (r.mtd : ℚ)
    productDesc := some r.productDesc }

/-- `np.where(df['Last Month Sold Qty'] > 0, lastMonth, mtd)`
(app.py line 51 / streamlit_app.py line 29). -/
def effSold (r : Row) : ℤ := if 0 < r.lastMonth then r.lastMonth else r.mtd

/-- `group['Effective Sold Qty'].max()`; groups are always nonempty, so the
default 0 is never consulted. -/
def maxEff (g : List Row) : ℤ := ((g.map effSold).max?).getD 0

/-- A source or destination candidate: its underlying row, the mutable
quantity counter (Transferable Qty or Needed Qty), and the priority. -/
structure Cand where
  row : Row
  qty : ℚ
  priority : ℕ
deriving DecidableEq, Repr

/-- Priority-1 sources: every ND row, Transferable Qty = SaSa Net Stock
(app.py lines 59-62 / streamlit_app.py lines 37-40). -/
def ndCands (g : List Row) : List Cand :=
  (g.filter (fun r => r.rpType = "ND")).map (fun r => ⟨r, (r.netStock : ℚ), 1⟩)

/-- RF rows with stock + pending > safety, then restricted to rows whose
effective sold quantity is strictly below the group maximum
(app.py lines 65-71 / streamlit_app.py lines 43-49).  Filtering the empty
list is the empty list, so the `if not rf_sources.empty:` guard needs no
separate case. -/
def rfSourceRows (g : List Row) : List Row :=
  (g.filter (fun r => r.rpType = "RF" ∧ r.safety < r.netStock + r.pending)).filter
    (fun r => effSold r < maxEff g)

/-- streamlit_app.py line 50: Transferable Qty = stock + pending − safety. -/
def slRfT (r : Row) : ℚ := ((r.netStock + r.pending - r.safety : ℤ) : ℚ)

/-- app.py lines 75-78: Transferable Qty = min(surplus, (stock+pending)·0.2);
the float literal `0.2` is modelled as the exact rational 1/5. -/
def appRfT (r : Row) : ℚ :=
  min ((r.netStock + r.pending - r.safety : ℤ) : ℚ) (((r.netStock + r.pending : ℤ) : ℚ) * (1 / 5))

/-- Priority-2 sources, with the variant-specific transferable quantity. -/
def rfCands (rfT : Row → ℚ) (g : List Row) : List Cand :=
  (rfSourceRows g).map (fun r => ⟨r, rfT r, 2⟩)

/-- Membership test for the urgent (priority-1) destination frame; the
source excludes potential destinations by dataframe index membership in
`urgent_dest`, which for rows of the same group coincides with this
predicate (app.py lines 85-89, 100-101 / streamlit_app.py lines 57-61, 72-73). -/
def urgentPred (r : Row) : Bool := decide (r.rpType = "RF" ∧ r.netStock = 0 ∧ 0 < effSold r)

/-- Priority-1 destinations: Needed Qty = Safety Stock
(app.py lines 85-92 / streamlit_app.py lines 57-64). -/
def urgentCands (g : List Row) : List Cand :=
  (g.filter urgentPred).map (fun r => ⟨r, (r.safety : ℚ), 1⟩)

/-- Priority-2 destinations: RF rows with stock + pending < safety, minus
urgent rows, restricted to rows at the group's maximum effective sold
quantity (app.py lines 95-105 / streamlit_app.py lines 67-77). -/
def potentialRows (g : List Row) : List Row :=
  ((g.filter (fun r => r.rpType = "RF" ∧ r.netStock + r.pending < r.safety)).filter
      (fun r => !urgentPred r)).filter (fun r => effSold r = maxEff g)

/-- Needed Qty = Safety Stock − (stock + pending)
(app.py line 107 / streamlit_app.py line 79). -/
def potentialCands (g : List Row) : List Cand :=
  (potentialRows g).map (fun r => ⟨r, ((r.safety - (r.netStock + r.pending) : ℤ) : ℚ), 2⟩)

def candLe (a b : Cand) : Prop := a.priority ≤ b.priority

instance : DecidableRel candLe := fun a b => inferInstanceAs (Decidable (a.priority ≤ b.priority))

/-- `sort_values(by='Priority')`.  The concatenated candidate lists are
already in ascending priority order (priority-1 block then priority-2
block), so any correct sort returns a list sorted by priority; it is
modelled here as a stable sort.  pandas' default quicksort is not
documented to be stable on ties — see the discussion of claim C5. -/
def sortCands (cs : List Cand) : List Cand := List.insertionSort candLe cs

/-- The source candidate list a group's matching pass consumes
(app.py line 114 / streamlit_app.py lines 85-89). -/
def sources (rfT : Row → ℚ) (g : List Row) : List Cand :=
  sortCands (ndCands g ++ rfCands rfT g)

/-- The destination candidate list a group's matching pass consumes
(app.py line 115 / streamlit_app.py lines 86-90). -/
def dests (g : List Row) : List Cand :=
  sortCands (urgentCands g ++ potentialCands g)

/-- `group.loc[group['Site'] == s['Site'], 'SaSa Net Stock'].iloc[0]`:
the first row of the group with the given site.  The default is never
consulted in the pipeline because every source candidate's row is in the
group (`iloc[0]` would raise otherwise). -/
def origStock (g : List Row) (site : String) : ℤ :=
  ((g.find? (fun r => r.site = site)).map Row.netStock).getD 0

/-- One emitted transfer recommendation
(app.py lines 128-136 / streamlit_app.py lines 102-110). -/
structure TransferRec where
  article : String
  productDesc : String
  om : String
  transferSite : String
  receiveSite : String
  qty : ℤ
  notes : String
deriving DecidableEq, Repr

def mkRec (srow drow : Row) (q : ℚ) : TransferRec :=
  { article := srow.article
    productDesc := srow.productDesc
    om := srow.om
    transferSite := srow.site
    receiveSite := drow.site
    qty := pyInt q
    notes := srow.notes }

/-- The quality-check cap: `transfer_qty = min(s.T, d.N)`, then
`if transfer_qty > original_stock: transfer_qty = original_stock`
(app.py lines 120-125 / streamlit_app.py lines 95-99). -/
def capQty (g : List Row) (srow : Row) (q0 : ℚ) : ℚ :=
  if (origStock g srow.site : ℚ) < q0 then (origStock g srow.site : ℚ) else q0

/-- The inner destination loop for one source record: threads the source's
remaining Transferable Qty, returns it together with the updated
destination list and the recommendations emitted in this pass
(app.py lines 118-138 / streamlit_app.py lines 93-112). -/
def matchSource (g : List Row) (srow : Row) : ℚ → List Cand → ℚ × List Cand × List TransferRec
  | sQty, [] => (sQty, [], [])
  | sQty, d :: ds =>
    if 0 < sQty ∧ 0 < d.qty ∧ srow.site ≠ d.row.site then
      let q := capQty g srow (min sQty d.qty)
      if 0 < q then
        let res := matchSource g srow (sQty - q) ds
        (res.1, { d with qty := d.qty - q } :: res.2.1, mkRec srow d.row q :: res.2.2)
      else
        let res := matchSource g srow sQty ds
        (res.1, d :: res.2.1, res.2.2)
    else
      let res := matchSource g srow sQty ds
      (res.1, d :: res.2.1, res.2.2)

/-- The outer source loop (app.py line 117 / streamlit_app.py line 92):
each source runs one pass over the threaded destination list. -/
def matchAllD (g : List Row) : List Cand → List Cand → List Cand × List TransferRec
  | [], ds => (ds, [])
  | s :: ss, ds =>
    let r1 := matchSource g s.row s.qty ds
    let rest := matchAllD g ss r1.2.1
    (rest.1, r1.2.2 ++ rest.2)

/-- One group's matching pass: final destination counters and emitted
recommendations. -/
def groupMatch (rfT : Row → ℚ) (g : List Row) : List Cand × List TransferRec :=
  matchAllD g (sources rfT g) (dests g)

def groupRecs (rfT : Row → ℚ) (g : List Row) : List TransferRec := (groupMatch rfT g).2

/-- Code-point lexicographic order on strings as character lists, used to
model pandas `groupby` emitting groups in ascending key order. -/
def strLtB : List Char → List Char → Bool
  | [], [] => false
  | [], _ :: _ => true
  | _ :: _, [] => false
  | c :: cs, d :: ds =>
    if c.toNat < d.toNat then true
    else if d.toNat < c.toNat then false
    else strLtB cs ds

def keyLe (a b : String × String) : Prop :=
  strLtB a.1.data b.1.data = true ∨ (a.1 = b.1 ∧ (strLtB a.2.data b.2.data = true ∨ a.2 = b.2))

instance : DecidableRel keyLe := fun a b =>
  inferInstanceAs (Decidable (_ = true ∨ (a.1 = b.1 ∧ (_ = true ∨ a.2 = b.2))))

/-- The distinct (Article, OM) keys, in ascending order, as
`df.groupby(['Article', 'OM'])` iterates them. -/
def groupKeys (t : List Row) : List (String × String) :=
  List.insertionSort keyLe ((t.map (fun r => (r.article, r.om))).dedup)

/-- The rows of one group, in original table order. -/
def groupRows (t : List Row) (k : String × String) : List Row :=
  t.filter (fun r => r.article = k.1 ∧ r.om = k.2)

/-- The full recommendation list accumulated over all groups: the raw
`recommendations` list (app.py lines 53-138 / streamlit_app.py, the value
`process_data` returns). -/
def pipelineRecs (rfT : Row → ℚ) (t : List Row) : List TransferRec :=
  (groupKeys t).flatMap (fun k => groupRecs rfT (groupRows t k))

/-- The rows of the output sheet: the raw list after the final quality
filter `Transfer Qty > 0` and `Transfer Site ≠ Receive Site`
(app.py lines 145-146 / streamlit_app.py lines 121-122). -/
def emittedRecs (rfT : Row → ℚ) (t : List Row) : List TransferRec :=
  ((pipelineRecs rfT t).filter (fun r => 0 < r.qty)).filter
    (fun r => r.transferSite ≠ r.receiveSite)

/-- Total quantity sent from one site within a recommendation list. -/
def sentQty (site : String) (rs : List TransferRec) : ℤ :=
  ((rs.filter (fun r => r.transferSite = site)).map TransferRec.qty).sum

/-- Total quantity received by one site within a recommendation list. -/
def recvQty (site : String) (rs : List TransferRec) : ℤ :=
  ((rs.filter (fun r => r.receiveSite = site)).map TransferRec.qty).sum

/-- `rec_df.merge(df[['Site', 'RP Type']], left_on='Transfer Site',
right_on='Site', how='left')`: one merged output row per (recommendation,
table row with matching site) pair.  A recommendation whose site matches
no row gets RP Type NaN and is dropped by the subsequent `groupby`, hence
contributes nothing (app.py lines 162-167 / streamlit_app.py lines 141-145). -/
def mergedRP (t : List Row) (rs : List TransferRec) : List (TransferRec × String) :=
  rs.flatMap (fun tr => (t.filter (fun row => row.site = tr.transferSite)).map
    (fun row => (tr, row.rpType)))

/-- `recommendation_count` of the per-RP-Type summary. -/
def rpCount (t : List Row) (rs : List TransferRec) (ty : String) : ℕ :=
  ((mergedRP t rs).filter (fun p => p.2 = ty)).length

/-- `total_qty` of the per-RP-Type summary. -/
def rpQty (t : List Row) (rs : List TransferRec) (ty : String) : ℤ :=
  (((mergedRP t rs).filter (fun p => p.2 = ty)).map (fun p => p.1.qty)).sum

/-- The RP Type of a site as the spec's summary description reads it: from
the first row of the table carrying that site. -/
def rpOfSite (t : List Row) (s : String) : Option String :=
  (t.find? (fun r => r.site = s)).map Row.rpType

/-- The number of recommendations whose transfer site has the given RP
type in the table — the count the spec claims the summary reports. -/
def claimedCount (t : List Row) (rs : List TransferRec) (ty : String) : ℕ :=
  (rs.filter (fun r => rpOfSite t r.transferSite = some ty)).length

/-- The summed quantity of recommendations whose transfer site has the
given RP type — the total the spec claims the summary reports. -/
def claimedQty (t : List Row) (rs : List TransferRec) (ty : String) : ℤ :=
  ((rs.filter (fun r => rpOfSite t r.transferSite = some ty)).map TransferRec.qty).sum

/-- The original (pre-matching) SaSa Net Stock of a site, looked up from
the first row of that site in its (Article, OM) group. -/
def origStockOf (t : List Row) (a o s : String) : Option ℤ :=
  ((groupRows t (a, o)).find? (fun r => r.site = s)).map Row.netStock

/-! ### Basic lemmas about truncation, clamping and normalization -/

theorem pyInt_intCast (n : ℤ) : pyInt ((n : ℚ)) = n := by
  unfold pyInt
  by_cases h : (0 : ℚ) ≤ (n : ℚ)
  · rw [if_pos h, Int.floor_intCast]
  · rw [if_neg h]
    have : (-(n : ℚ)) = (((-n : ℤ)) : ℚ) := by push_cast; ring
    rw [this, Int.floor_intCast, neg_neg]

theorem pyInt_nonneg {q : ℚ} (h : 0 ≤ q) : 0 ≤ pyInt q := by
  unfold pyInt
  rw [if_pos h]
  exact Int.le_floor.mpr (by exact_mod_cast h)

theorem pyInt_le_self {q : ℚ} (h : 0 ≤ q) : (pyInt q : ℚ) ≤ q := by
  unfold pyInt
  rw [if_pos h]
  exact Int.floor_le q

theorem pyInt_le_int {q : ℚ} {n : ℤ} (h0 : 0 ≤ q) (h : q ≤ (n : ℚ)) : pyInt q ≤ n := by
  have := Int.floor_le_floor h
  rw [Int.floor_intCast] at this
  unfold pyInt
  rw [if_pos h0]
  exact this

theorem clampSold_nonneg (v : ℤ) : 0 ≤ (clampSold v).1 := by
  simp only [clampSold]
  split_ifs <;> simp <;> omega

theorem clampSold_le (v : ℤ) : (clampSold v).1 ≤ 100000 := by
  simp only [clampSold]
  split_ifs <;> simp <;> omega

theorem clampSold_id {v : ℤ} (h0 : 0 ≤ v) (h1 : v ≤ 100000) : clampSold v = (v, false) := by
  simp only [clampSold]
  rw [if_neg (by omega), if_neg (by omega)]

theorem clampSold_clampSold (v : ℤ) : clampSold ((clampSold v).1) = ((clampSold v).1, false) :=
  clampSold_id (clampSold_nonneg v) (clampSold_le v)

theorem normNum_nonneg {c : Option ℚ} (h : ∀ q ∈ c, 0 ≤ q) : 0 ≤ normNum c := by
  unfold normNum
  cases c with
  | none => simp [pyInt]
  | some q => exact pyInt_nonneg (h q rfl)

/-- Helper for idempotence: a second normalization pass leaves every field
except Notes unchanged and resets Notes to the empty string. -/
theorem normalizeRow_twice (r : RawRow) :
    normalizeRow (rowToRaw (normalizeRow r)) = { normalizeRow r with notes := "" } := by
  unfold normalizeRow rowToRaw normNum
  simp only [Option.getD_some, pyInt_intCast, clampSold_clampSold]
  simp

/-! ### C2 — normalized numeric fields -/

/-- C2 (amended): after normalization the two sold-quantity fields are
always non-negative integers, and SaSa Net Stock, Pending Received and
Safety Stock are non-negative provided every present, parsable raw value
in those columns is non-negative.  (The normalizer zeroes negatives only
in the two sold columns, so a negative raw stock value survives — see the
counterexample.) -/
theorem claim_C2 (r : RawRow) (hn : ∀ q ∈ r.netStock, 0 ≤ q) (hp : ∀ q ∈ r.pending, 0 ≤ q)
    (hs : ∀ q ∈ r.safety, 0 ≤ q) :
    0 ≤ (normalizeRow r).netStock ∧ 0 ≤ (normalizeRow r).pending ∧
      0 ≤ (normalizeRow r).safety ∧ 0 ≤ (normalizeRow r).lastMonth ∧
      0 ≤ (normalizeRow r).mtd :=
  ⟨normNum_nonneg hn, normNum_nonneg hp, normNum_nonneg hs,
    clampSold_nonneg _, clampSold_nonneg _⟩

/-- A well-behaved raw row (non-negative stock figures, with a fractional
stock value and out-of-range sold values to exercise coercion). -/
def rawC2w : RawRow :=
  ⟨"A", some "O", some "ND", some "S", some (7 / 2), none, some 4, some (-3), some 200001, none⟩

theorem claim_C2_witness :
    0 ≤ (normalizeRow rawC2w).netStock ∧ 0 ≤ (normalizeRow rawC2w).pending ∧
      0 ≤ (normalizeRow rawC2w).safety ∧ 0 ≤ (normalizeRow rawC2w).lastMonth ∧
      0 ≤ (normalizeRow rawC2w).mtd :=
  claim_C2 rawC2w
    (by intro q hq; simp [rawC2w, Option.mem_def] at hq; rw [← hq]; norm_num)
    (by intro q hq; simp [rawC2w, Option.mem_def] at hq)
    (by intro q hq; simp [rawC2w, Option.mem_def] at hq; rw [← hq]; norm_num)

/-- A raw row whose SaSa Net Stock is −5. -/
def rawC2neg : RawRow :=
  ⟨"A", some "O", some "RF", some "S", some (-5), some 0, some 0, some 0, some 0, none⟩

/-- C2 counterexample: the claim "every numeric field is non-negative
after normalization" fails on a raw row with SaSa Net Stock −5: the
normalizer never clamps that column, so the normalized value is −5. -/
theorem claim_C2_cex : ¬ 0 ≤ (normalizeRow rawC2neg).netStock :=
  of_decide_eq_true (by with_unfolding_all rfl)

/-! ### C4 — normalization idempotence -/

/-- C4 (amended): a second normalization pass leaves every numeric and
string field of every row unchanged, but recomputes the Notes column from
scratch: after the second pass every row's Notes is the empty string, so
flags appended on the first pass are lost. -/
theorem claim_C4 (t : List RawRow) :
    normalizeTable (List.map rowToRaw (normalizeTable t)) =
      (normalizeTable t).map (fun r => { r with notes := "" }) := by
  induction t with
  | nil => rfl
  | cons r rs ih =>
    simp only [normalizeTable, List.map_cons] at ih ⊢
    rw [normalizeRow_twice]
    exact congrArg _ ih

/-- A raw row whose Last Month Sold Qty 200000 gets clamped and flagged on
the first pass. -/
def rawC4 : RawRow :=
  ⟨"A", some "O", some "RF", some "S", some 1, some 0, some 0, some 200000, some 0, none⟩

/-- C4 counterexample: running the normalizer on its own output is *not*
the identity — the first pass flags the clamped sales value in Notes, the
second pass resets Notes to the empty string. -/
theorem claim_C4_cex :
    normalizeTable (List.map rowToRaw (normalizeTable [rawC4])) ≠ normalizeTable [rawC4] := by
  intro h
  have h1 : normalizeRow (rowToRaw (normalizeRow rawC4)) = normalizeRow rawC4 := by
    simpa [normalizeTable] using h
  have h2 := congrArg Row.notes h1
  rw [normalizeRow_twice] at h2
  have h3 : (normalizeRow rawC4).notes = salesFlag :=
    of_decide_eq_true (by with_unfolding_all rfl)
  rw [h3] at h2
  exact absurd h2 (by decide)

/-! ### Structural lemmas about the greedy matcher -/

theorem capQty_le (g : List Row) (srow : Row) (q0 : ℚ) : capQty g srow q0 ≤ q0 := by
  unfold capQty
  split_ifs with h
  · exact h.le
  · exact le_rfl

theorem capQty_le_orig (g : List Row) (srow : Row) (q0 : ℚ) :
    capQty g srow q0 ≤ (origStock g srow.site : ℚ) := by
  unfold capQty
  split_ifs with h
  · exact le_rfl
  · exact le_of_not_lt h

/-- Every recommendation emitted by one source's destination pass carries
that source row's identity fields, a receive site drawn from the
destination list and different from the transfer site, and a quantity
between 0 and the group's original stock of the transfer site. -/
theorem matchSource_spec (g : List Row) (srow : Row) :
    ∀ (ds : List Cand) (sQty : ℚ) (tr : TransferRec),
      tr ∈ (matchSource g srow sQty ds).2.2 →
      tr.article = srow.article ∧ tr.om = srow.om ∧ tr.transferSite = srow.site ∧
        tr.receiveSite ∈ ds.map (fun d => d.row.site) ∧ tr.receiveSite ≠ srow.site ∧
        0 ≤ tr.qty ∧ tr.qty ≤ origStock g srow.site := by
  intro ds
  induction ds with
  | nil => intro sQty tr h; simp [matchSource] at h
  | cons d ds ih =>
    intro sQty tr h
    simp only [matchSource] at h
    by_cases hg : 0 < sQty ∧ 0 < d.qty ∧ srow.site ≠ d.row.site
    · rw [if_pos hg] at h
      by_cases hq : 0 < capQty g srow (min sQty d.qty)
      · rw [if_pos hq] at h
        rcases List.mem_cons.mp h with rfl | h
        · refine ⟨rfl, rfl, rfl, ?_, ?_, ?_, ?_⟩
          · simp [mkRec]
          · simpa [mkRec] using fun he => hg.2.2 he.symm
          · exact pyInt_nonneg hq.le
          · exact pyInt_le_int hq.le (capQty_le_orig g srow _)
        · obtain ⟨h1, h2, h3, h4, h5, h6, h7⟩ := ih _ tr h
          exact ⟨h1, h2, h3, by simp [h4], h5, h6, h7⟩
      · rw [if_neg hq] at h
        obtain ⟨h1, h2, h3, h4, h5, h6, h7⟩ := ih _ tr h
        exact ⟨h1, h2, h3, by simp [h4], h5, h6, h7⟩
    · rw [if_neg hg] at h
      obtain ⟨h1, h2, h3, h4, h5, h6, h7⟩ := ih _ tr h
      exact ⟨h1, h2, h3, by simp [h4], h5, h6, h7⟩

/-- Every recommendation of a group's matching pass is attributable to a
source candidate of that pass. -/
theorem matchAllD_spec (g : List Row) :
    ∀ (ss ds : List Cand) (tr : TransferRec), tr ∈ (matchAllD g ss ds).2 →
      ∃ s ∈ ss, tr.article = s.row.article ∧ tr.om = s.row.om ∧
        tr.transferSite = s.row.site ∧ tr.receiveSite ≠ s.row.site ∧
        0 ≤ tr.qty ∧ tr.qty ≤ origStock g s.row.site := by
  intro ss
  induction ss with
  | nil => intro ds tr h; simp [matchAllD] at h
  | cons s ss ih =>
    intro ds tr h
    simp only [matchAllD, List.mem_append] at h
    rcases h with h | h
    · obtain ⟨h1, h2, h3, _, h5, h6, h7⟩ := matchSource_spec g s.row _ _ tr h
      exact ⟨s, List.mem_cons_self s ss, h1, h2, h3, h5, h6, h7⟩
    · obtain ⟨s', hs', hrest⟩ := ih _ tr h
      exact ⟨s', List.mem_cons_of_mem s hs', hrest⟩

/-- The underlying row of every source candidate belongs to the group. -/
theorem sources_row_mem {rfT : Row → ℚ} {g : List Row} {c : Cand}
    (h : c ∈ sources rfT g) : c.row ∈ g := by
  have hperm := List.perm_insertionSort candLe (ndCands g ++ rfCands rfT g)
  have h2 : c ∈ ndCands g ++ rfCands rfT g := hperm.mem_iff.mp h
  rcases List.mem_append.mp h2 with h3 | h3
  · obtain ⟨r, hr, rfl⟩ := List.mem_map.mp h3
    exact (List.mem_filter.mp hr).1
  · obtain ⟨r, hr, rfl⟩ := List.mem_map.mp h3
    unfold rfSourceRows at hr
    exact (List.mem_filter.mp (List.mem_filter.mp hr).1).1

/-- The underlying row of every destination candidate belongs to the group. -/
theorem dests_row_mem {g : List Row} {c : Cand} (h : c ∈ dests g) : c.row ∈ g := by
  have hperm := List.perm_insertionSort candLe (urgentCands g ++ potentialCands g)
  have h2 : c ∈ urgentCands g ++ potentialCands g := hperm.mem_iff.mp h
  rcases List.mem_append.mp h2 with h3 | h3
  · obtain ⟨r, hr, rfl⟩ := List.mem_map.mp h3
    exact (List.mem_filter.mp hr).1
  · obtain ⟨r, hr, rfl⟩ := List.mem_map.mp h3
    unfold potentialRows at hr
    exact (List.mem_filter.mp (List.mem_filter.mp (List.mem_filter.mp hr).1).1).1

theorem groupRows_key {t : List Row} {k : String × String} {r : Row}
    (h : r ∈ groupRows t k) : r.article = k.1 ∧ r.om = k.2 := by
  have h2 := (List.mem_filter.mp h).2
  simpa using h2

theorem origStock_pos_exists {g : List Row} {site : String} {q : ℤ}
    (h0 : 0 < q) (hle : q ≤ origStock g site) :
    ∃ n, ((g.find? (fun r => r.site = site)).map Row.netStock) = some n ∧ q ≤ n := by
  unfold origStock at hle
  cases hfind : g.find? (fun r => r.site = site) with
  | none => rw [hfind] at hle; simp at hle; omega
  | some r =>
    rw [hfind] at hle
    simp only [Option.map_some', Option.getD_some] at hle
    exact ⟨r.netStock, rfl, hle⟩

/-! ### C1 — recommendation validity -/

/-- C1: every recommendation surviving the final quality filter has
distinct transfer and receive sites, strictly positive quantity, and a
quantity bounded by the original SaSa Net Stock of the transfer site as
looked up from the first row of that site in its (Article, OM) group.
Holds for both variants (any RF transferable-quantity function). -/
theorem claim_C1 (rfT : Row → ℚ) (t : List Row) (tr : TransferRec)
    (h : tr ∈ emittedRecs rfT t) :
    tr.transferSite ≠ tr.receiveSite ∧ 0 < tr.qty ∧
      ∃ n, origStockOf t tr.article tr.om tr.transferSite = some n ∧ tr.qty ≤ n := by
  unfold emittedRecs at h
  have h2 := List.mem_filter.mp h
  have h3 := List.mem_filter.mp h2.1
  have hqpos : 0 < tr.qty := by simpa using h3.2
  have hne : tr.transferSite ≠ tr.receiveSite := by simpa using h2.2
  refine ⟨hne, hqpos, ?_⟩
  have h4 : tr ∈ pipelineRecs rfT t := h3.1
  unfold pipelineRecs at h4
  obtain ⟨k, hk, htr⟩ := List.mem_flatMap.mp h4
  unfold groupRecs groupMatch at htr
  obtain ⟨s, hs, ha, ho, ht, _, _, hqle⟩ := matchAllD_spec _ _ _ tr htr
  have hkey := groupRows_key (sources_row_mem hs)
  have hk2 : (tr.article, tr.om) = k := by
    rw [ha, ho]
    exact Prod.ext hkey.1 hkey.2
  unfold origStockOf
  rw [hk2, ht]
  exact origStock_pos_exists hqpos (ht ▸ hqle)

/-! ### C7 — top-seller exclusion -/

/-- C7: a row at the group's maximum effective sold quantity is never an
RF-surplus (priority-2) source candidate, and a row strictly below the
group maximum is never a potential-shortage (priority-2) destination
candidate. -/
theorem claim_C7 (rfT : Row → ℚ) (g : List Row) (c : Cand) :
    (c ∈ rfCands rfT g → effSold c.row ≠ maxEff g) ∧
      (c ∈ potentialCands g → ¬ effSold c.row < maxEff g) := by
  constructor
  · intro hc
    obtain ⟨r, hr, rfl⟩ := List.mem_map.mp hc
    have h2 := (List.mem_filter.mp hr).2
    have h3 : effSold r < maxEff g := by simpa using h2
    exact ne_of_lt h3
  · intro hc
    obtain ⟨r, hr, rfl⟩ := List.mem_map.mp hc
    have h2 := (List.mem_filter.mp hr).2
    have h3 : effSold r = maxEff g := by simpa using h2
    rw [h3]
    exact lt_irrefl _

/-- A group exercising both parts of C7: row S is an RF-surplus source
(below the maximum), row B is a potential-shortage destination (at the
maximum). -/
def rowC7S : Row := ⟨"A", "O", "S", "RF", 10, 0, 2, 1, 0, "", ""⟩

def rowC7B : Row := ⟨"A", "O", "B", "RF", 1, 0, 5, 9, 0, "", ""⟩

def gC7 : List Row := [rowC7S, rowC7B]

theorem claim_C7_witness :
    effSold rowC7S ≠ maxEff gC7 ∧ ¬ effSold rowC7B < maxEff gC7 :=
  ⟨(claim_C7 slRfT gC7 ⟨rowC7S, slRfT rowC7S, 2⟩).1
      (of_decide_eq_true (by with_unfolding_all rfl)),
    (claim_C7 slRfT gC7 ⟨rowC7B, 4, 2⟩).2
      (of_decide_eq_true (by with_unfolding_all rfl))⟩

/-! ### Budget conservation (C3): helper sums -/

/-- The total remaining capacity (clipped at 0) of the destination
candidates carrying a given site. -/
def destBudget (ds : List Cand) (x : String) : ℚ :=
  ((ds.filter (fun c => c.row.site = x)).map (fun c => max c.qty 0)).sum

theorem sentQty_cons (x : String) (tr : TransferRec) (rs : List TransferRec) :
    sentQty x (tr :: rs) = (if tr.transferSite = x then tr.qty else 0) + sentQty x rs := by
  by_cases h : tr.transferSite = x <;>
    simp [sentQty, List.filter_cons, h]

theorem sentQty_append (x : String) (rs₁ rs₂ : List TransferRec) :
    sentQty x (rs₁ ++ rs₂) = sentQty x rs₁ + sentQty x rs₂ := by
  simp [sentQty, List.filter_append]

theorem recvQty_cons (x : String) (tr : TransferRec) (rs : List TransferRec) :
    recvQty x (tr :: rs) = (if tr.receiveSite = x then tr.qty else 0) + recvQty x rs := by
  by_cases h : tr.receiveSite = x <;>
    simp [recvQty, List.filter_cons, h]

theorem recvQty_append (x : String) (rs₁ rs₂ : List TransferRec) :
    recvQty x (rs₁ ++ rs₂) = recvQty x rs₁ + recvQty x rs₂ := by
  simp [recvQty, List.filter_append]

theorem destBudget_cons (c : Cand) (cs : List Cand) (x : String) :
    destBudget (c :: cs) x = (if c.row.site = x then max c.qty 0 else 0) + destBudget cs x := by
  by_cases h : c.row.site = x <;>
    simp [destBudget, List.filter_cons, h]

theorem destBudget_nonneg (ds : List Cand) (x : String) : 0 ≤ destBudget ds x := by
  apply List.sum_nonneg
  intro q hq
  simp only [List.mem_map] at hq
  obtain ⟨c, _, rfl⟩ := hq
  exact le_max_right _ _

/-- One source pass sends at most its starting Transferable Qty in total. -/
theorem matchSource_sent (g : List Row) (srow : Row) :
    ∀ (ds : List Cand) (sQty : ℚ),
      ((((matchSource g srow sQty ds).2.2).map TransferRec.qty).sum : ℚ) ≤ max sQty 0 := by
  intro ds
  induction ds with
  | nil =>
    intro sQty
    simp only [matchSource, List.map_nil, List.sum_nil, Int.cast_zero]
    exact le_max_right _ _
  | cons d ds ih =>
    intro sQty
    simp only [matchSource]
    by_cases hg : 0 < sQty ∧ 0 < d.qty ∧ srow.site ≠ d.row.site
    · rw [if_pos hg]
      by_cases hq : 0 < capQty g srow (min sQty d.qty)
      · rw [if_pos hq]
        dsimp only
        simp only [List.map_cons, List.sum_cons, Int.cast_add]
        have h1 : ((pyInt (capQty g srow (min sQty d.qty)) : ℤ) : ℚ) ≤
            capQty g srow (min sQty d.qty) := pyInt_le_self hq.le
        have h2 := ih (sQty - capQty g srow (min sQty d.qty))
        have h3 : capQty g srow (min sQty d.qty) ≤ sQty :=
          le_trans (capQty_le _ _ _) (min_le_left _ _)
        rw [max_eq_left (by linarith : (0:ℚ) ≤ sQty - capQty g srow (min sQty d.qty))] at h2
        rw [max_eq_left hg.1.le]
        simp only [mkRec]
        linarith
      · rw [if_neg hq]
        dsimp only
        exact le_trans (ih sQty) le_rfl
    · rw [if_neg hg]
      dsimp only
      exact le_trans (ih sQty) le_rfl

/-- One source pass: what a site receives is bounded by how much the
destination budget of that site shrank during the pass. -/
theorem matchSource_recv (g : List Row) (srow : Row) :
    ∀ (ds : List Cand) (sQty : ℚ) (x : String),
      ((recvQty x (matchSource g srow sQty ds).2.2 : ℤ) : ℚ) ≤
        destBudget ds x - destBudget (matchSource g srow sQty ds).2.1 x := by
  intro ds
  induction ds with
  | nil =>
    intro sQty x
    simp [matchSource, recvQty, destBudget]
  | cons d ds ih =>
    intro sQty x
    simp only [matchSource]
    by_cases hg : 0 < sQty ∧ 0 < d.qty ∧ srow.site ≠ d.row.site
    · rw [if_pos hg]
      by_cases hq : 0 < capQty g srow (min sQty d.qty)
      · rw [if_pos hq]
        dsimp only
        rw [recvQty_cons, destBudget_cons, destBudget_cons]
        have hcap : capQty g srow (min sQty d.qty) ≤ d.qty :=
          le_trans (capQty_le _ _ _) (min_le_right _ _)
        have hrec := ih (sQty - capQty g srow (min sQty d.qty)) x
        by_cases hx : d.row.site = x
        · have hrecv : (mkRec srow d.row (capQty g srow (min sQty d.qty))).receiveSite = x := hx
          rw [if_pos hrecv, if_pos hx, if_pos hx]
          dsimp only
          have h0 : (mkRec srow d.row (capQty g srow (min sQty d.qty))).qty =
              pyInt (capQty g srow (min sQty d.qty)) := rfl
          rw [h0]
          have h1 : ((pyInt (capQty g srow (min sQty d.qty)) : ℤ) : ℚ) ≤
              capQty g srow (min sQty d.qty) := pyInt_le_self hq.le
          have h2 : max d.qty 0 = d.qty := max_eq_left hg.2.1.le
          have h3 : max (d.qty - capQty g srow (min sQty d.qty)) 0 =
              d.qty - capQty g srow (min sQty d.qty) := max_eq_left (by linarith)
          rw [h2, h3]
          push_cast
          push_cast at hrec
          linarith
        · have hrecv : ¬ (mkRec srow d.row (capQty g srow (min sQty d.qty))).receiveSite = x := hx
          rw [if_neg hrecv, if_neg hx, if_neg hx]
          push_cast
          push_cast at hrec
          linarith
      · rw [if_neg hq]
        rw [destBudget_cons, destBudget_cons]
        have hrec := ih sQty x
        by_cases hx : d.row.site = x
        · rw [if_pos hx]; linarith
        · rw [if_neg hx]; linarith
    · rw [if_neg hg]
      rw [destBudget_cons, destBudget_cons]
      have hrec := ih sQty x
      by_cases hx : d.row.site = x
      · rw [if_pos hx]; linarith
      · rw [if_neg hx]; linarith

/-- Across the whole matching pass, what a site receives is bounded by the
shrinkage of its destination budget. -/
theorem matchAllD_recv (g : List Row) :
    ∀ (ss ds : List Cand) (x : String),
      ((recvQty x (matchAllD g ss ds).2 : ℤ) : ℚ) ≤
        destBudget ds x - destBudget (matchAllD g ss ds).1 x := by
  intro ss
  induction ss with
  | nil =>
    intro ds x
    simp [matchAllD, recvQty]
  | cons s ss ih =>
    intro ds x
    simp only [matchAllD]
    rw [recvQty_append]
    have h1 := matchSource_recv g s.row ds s.qty x
    have h2 := ih (matchSource g s.row s.qty ds).2.1 x
    push_cast
    push_cast at h1 h2
    linarith

/-- Every recommendation of a pass has its transfer site among the pass's
source-candidate sites; so a site with no candidate sends nothing. -/
theorem matchAllD_sent_notmem (g : List Row) (ss ds : List Cand) (x : String)
    (hx : x ∉ ss.map (fun c => c.row.site)) :
    sentQty x (matchAllD g ss ds).2 = 0 := by
  unfold sentQty
  rw [List.filter_eq_nil_iff.mpr ?_]
  · rfl
  · intro tr htr
    obtain ⟨s, hs, _, _, ht, _, _, _⟩ := matchAllD_spec g ss ds tr htr
    simp only [decide_eq_true_eq]
    intro hcontra
    apply hx
    rw [← hcontra, ht]
    exact List.mem_map_of_mem (fun c => c.row.site) hs

/-- All recommendations of a single source pass name that source's site. -/
theorem matchSource_sent_eq (g : List Row) (srow : Row) (ds : List Cand) (sQty : ℚ) :
    sentQty srow.site (matchSource g srow sQty ds).2.2 =
      (((matchSource g srow sQty ds).2.2).map TransferRec.qty).sum := by
  unfold sentQty
  rw [List.filter_eq_self.mpr ?_]
  intro tr htr
  have h := (matchSource_spec g srow ds sQty tr htr).2.2.1
  simp [h]

theorem matchSource_sent_ne (g : List Row) (srow : Row) (ds : List Cand) (sQty : ℚ)
    (x : String) (hx : x ≠ srow.site) :
    sentQty x (matchSource g srow sQty ds).2.2 = 0 := by
  unfold sentQty
  rw [List.filter_eq_nil_iff.mpr ?_]
  · rfl
  · intro tr htr
    have h := (matchSource_spec g srow ds sQty tr htr).2.2.1
    simp only [h, decide_eq_true_eq]
    exact fun he => hx he.symm

/-- Across the whole matching pass, a source candidate's site sends at
most that candidate's starting Transferable Qty — provided source sites
are pairwise distinct. -/
theorem matchAllD_sent (g : List Row) :
    ∀ (ss ds : List Cand), (ss.map (fun c => c.row.site)).Nodup →
      ∀ s ∈ ss, ((sentQty s.row.site (matchAllD g ss ds).2 : ℤ) : ℚ) ≤ max s.qty 0 := by
  intro ss
  induction ss with
  | nil => intro ds _ s hs; exact absurd hs (List.not_mem_nil s)
  | cons s0 ss ih =>
    intro ds hnodup s hs
    have hnd2 := List.nodup_cons.mp hnodup
    simp only [matchAllD]
    rw [sentQty_append]
    rcases List.mem_cons.mp hs with rfl | hs'
    · have h1 : sentQty s.row.site (matchAllD g ss (matchSource g s.row s.qty ds).2.1).2 = 0 :=
        matchAllD_sent_notmem g ss _ s.row.site hnd2.1
      rw [matchSource_sent_eq, h1]
      have := matchSource_sent g s.row ds s.qty
      simpa using this
    · have hne : s.row.site ≠ s0.row.site := by
        intro he
        have hmem : s.row.site ∈ ss.map (fun c => c.row.site) :=
          List.mem_map_of_mem (fun c => c.row.site) hs'
        rw [he] at hmem
        exact hnd2.1 hmem
      rw [matchSource_sent_ne g s0.row ds s0.qty s.row.site hne]
      have := ih (matchSource g s0.row s0.qty ds).2.1 hnd2.2 s hs'
      push_cast
      push_cast at this
      linarith

/-- With pairwise-distinct sites, the destination candidates at one site
form the singleton of that candidate. -/
theorem filter_site_single :
    ∀ {ds : List Cand}, ((ds.map (fun c => c.row.site)).Nodup) →
      ∀ {d : Cand}, d ∈ ds → ds.filter (fun c => c.row.site = d.row.site) = [d] := by
  intro ds
  induction ds with
  | nil => intro _ d hd; exact absurd hd (List.not_mem_nil d)
  | cons c cs ih =>
    intro hnodup d hd
    have hnd2 := List.nodup_cons.mp hnodup
    rcases List.mem_cons.mp hd with rfl | hd'
    · rw [List.filter_cons_of_pos (by simp)]
      rw [List.filter_eq_nil_iff.mpr ?_]
      intro c' hc'
      simp only [decide_eq_true_eq]
      intro hcontra
      have hmem : c'.row.site ∈ cs.map (fun c => c.row.site) :=
        List.mem_map_of_mem (fun c => c.row.site) hc'
      rw [hcontra] at hmem
      exact hnd2.1 hmem
    · have hne : c.row.site ≠ d.row.site := by
        intro he
        have hmem : d.row.site ∈ cs.map (fun c => c.row.site) :=
          List.mem_map_of_mem (fun c => c.row.site) hd'
        rw [← he] at hmem
        exact hnd2.1 hmem
      rw [List.filter_cons_of_neg (by simp [hne])]
      exact ih hnd2.2 hd'

theorem destBudget_single {ds : List Cand} (hnodup : (ds.map (fun c => c.row.site)).Nodup)
    {d : Cand} (hd : d ∈ ds) : destBudget ds d.row.site = max d.qty 0 := by
  unfold destBudget
  rw [filter_site_single hnodup hd]
  simp

theorem sources_qty_nonneg {rfT : Row → ℚ} {g : List Row}
    (hrf : ∀ r ∈ rfSourceRows g, 0 ≤ rfT r) (hrow : ∀ r ∈ g, 0 ≤ r.netStock)
    {c : Cand} (hc : c ∈ sources rfT g) : 0 ≤ c.qty := by
  have h2 : c ∈ ndCands g ++ rfCands rfT g :=
    (List.perm_insertionSort candLe _).mem_iff.mp hc
  rcases List.mem_append.mp h2 with h3 | h3
  · obtain ⟨r, hr, rfl⟩ := List.mem_map.mp h3
    have := hrow r (List.mem_filter.mp hr).1
    show (0 : ℚ) ≤ (r.netStock : ℚ)
    exact_mod_cast this
  · obtain ⟨r, hr, rfl⟩ := List.mem_map.mp h3
    exact hrf r hr

theorem dests_qty_nonneg {g : List Row} (hrow : ∀ r ∈ g, 0 ≤ r.safety)
    {c : Cand} (hc : c ∈ dests g) : 0 ≤ c.qty := by
  have h2 : c ∈ urgentCands g ++ potentialCands g :=
    (List.perm_insertionSort candLe _).mem_iff.mp hc
  rcases List.mem_append.mp h2 with h3 | h3
  · obtain ⟨r, hr, rfl⟩ := List.mem_map.mp h3
    have := hrow r (List.mem_filter.mp hr).1
    show (0 : ℚ) ≤ (r.safety : ℚ)
    exact_mod_cast this
  · obtain ⟨r, hr, rfl⟩ := List.mem_map.mp h3
    have h4 := (List.mem_filter.mp (List.mem_filter.mp (List.mem_filter.mp hr).1).1).2
    have h5 : r.netStock + r.pending < r.safety := by
      simp only [decide_eq_true_eq] at h4
      exact h4.2
    have : (0 : ℤ) ≤ r.safety - (r.netStock + r.pending) := by omega
    show (0 : ℚ) ≤ ((r.safety - (r.netStock + r.pending) : ℤ) : ℚ)
    exact_mod_cast this

/-! ### C3 — budget conservation -/

/-- C3 (amended): within a group whose stock and safety figures are
non-negative and whose candidate sites are pairwise distinct, the total
quantity recommended out of a source candidate's site never exceeds that
candidate's computed Transferable Qty, and the total quantity recommended
into a destination candidate's site never exceeds that candidate's
computed Needed Qty.  (Without the non-negativity proviso the statement
fails vacuously at a candidate with negative Needed Qty — see the
counterexample — because a site that receives nothing still "exceeds" a
negative budget.) -/
theorem claim_C3 (rfT : Row → ℚ) (g : List Row)
    (hrf : ∀ r ∈ rfSourceRows g, 0 ≤ rfT r)
    (hrow : ∀ r ∈ g, 0 ≤ r.netStock ∧ 0 ≤ r.safety)
    (hns : ((sources rfT g).map (fun c => c.row.site)).Nodup)
    (hnd : ((dests g).map (fun c => c.row.site)).Nodup) :
    (∀ s ∈ sources rfT g, ((sentQty s.row.site (groupRecs rfT g) : ℤ) : ℚ) ≤ s.qty) ∧
      (∀ d ∈ dests g, ((recvQty d.row.site (groupRecs rfT g) : ℤ) : ℚ) ≤ d.qty) := by
  constructor
  · intro s hs
    have h1 := matchAllD_sent g (sources rfT g) (dests g) hns s hs
    have h2 : max s.qty 0 = s.qty :=
      max_eq_left (sources_qty_nonneg hrf (fun r hr => (hrow r hr).1) hs)
    rw [h2] at h1
    exact h1
  · intro d hd
    have h1 := matchAllD_recv g (sources rfT g) (dests g) d.row.site
    have h2 := destBudget_single hnd hd
    have h3 := destBudget_nonneg (matchAllD g (sources rfT g) (dests g)).1 d.row.site
    have h4 : max d.qty 0 = d.qty :=
      max_eq_left (dests_qty_nonneg (fun r hr => (hrow r hr).2) hd)
    show ((recvQty d.row.site (matchAllD g (sources rfT g) (dests g)).2 : ℤ) : ℚ) ≤ d.qty
    rw [← h4, ← h2]
    linarith

/-- A raw row with a *negative* Safety Stock: it becomes an urgent
destination candidate with Needed Qty −3. -/
def rawC3 : RawRow :=
  ⟨"A", some "O", some "RF", some "S", some 0, some 0, some (-3), some 5, some 0, none⟩

/-- C3 counterexample: on the table normalized from `rawC3`, the sole
destination candidate has computed Needed Qty −3 while the group emits no
recommendation at all, so the received total 0 exceeds the computed Needed
Qty — the claim as stated (with no non-negativity proviso) is false. -/
theorem claim_C3_cex :
    ¬ ∀ d ∈ dests (groupRows (normalizeTable [rawC3]) ("A", "O")),
        ((recvQty d.row.site
          (groupRecs slRfT (groupRows (normalizeTable [rawC3]) ("A", "O"))) : ℤ) : ℚ) ≤ d.qty :=
  of_decide_eq_true (by with_unfolding_all rfl)

/-- Scenario A of the spec: an ND source and an urgent RF destination. -/
def rowScenA : Row := ⟨"ART", "OM1", "A", "ND", 50, 0, 0, 0, 0, "", ""⟩

def rowScenB : Row := ⟨"ART", "OM1", "B", "RF", 0, 0, 30, 10, 0, "", ""⟩

def tScenA : List Row := [rowScenA, rowScenB]

def recScenA : TransferRec := ⟨"ART", "", "OM1", "A", "B", 30, ""⟩

theorem claim_C1_witness :
    recScenA.transferSite ≠ recScenA.receiveSite ∧ 0 < recScenA.qty ∧
      ∃ n, origStockOf tScenA recScenA.article recScenA.om recScenA.transferSite = some n ∧
        recScenA.qty ≤ n :=
  claim_C1 slRfT tScenA recScenA (of_decide_eq_true (by with_unfolding_all rfl))

theorem claim_C3_witness :
    (∀ s ∈ sources slRfT tScenA,
        ((sentQty s.row.site (groupRecs slRfT tScenA) : ℤ) : ℚ) ≤ s.qty) ∧
      (∀ d ∈ dests tScenA,
        ((recvQty d.row.site (groupRecs slRfT tScenA) : ℤ) : ℚ) ≤ d.qty) :=
  claim_C3 slRfT tScenA
    (of_decide_eq_true (by with_unfolding_all rfl))
    (of_decide_eq_true (by with_unfolding_all rfl))
    (of_decide_eq_true (by with_unfolding_all rfl))
    (of_decide_eq_true (by with_unfolding_all rfl))

/-! ### C8 — the two variants agree when no RF-surplus source exists -/

theorem rfEmpty_sources_eq {g : List Row} (h : rfSourceRows g = [])
    (rfT1 rfT2 : Row → ℚ) : sources rfT1 g = sources rfT2 g := by
  simp [sources, rfCands, h]

/-- C8: on any table in which no group produces a priority-2 (RF-surplus)
source candidate, the recommendation list computed by app.py's upload
handler equals the list returned by streamlit_app.py's `process_data` —
same recommendations, same order, same fields.  The two files differ only
in the RF transferable-quantity formula, which is never consulted. -/
theorem claim_C8 (t : List Row)
    (h : ∀ k ∈ groupKeys t, rfSourceRows (groupRows t k) = []) :
    pipelineRecs appRfT t = pipelineRecs slRfT t := by
  unfold pipelineRecs
  have aux : ∀ ks : List (String × String),
      (∀ k ∈ ks, rfSourceRows (groupRows t k) = []) →
      ks.flatMap (fun k => groupRecs appRfT (groupRows t k)) =
        ks.flatMap (fun k => groupRecs slRfT (groupRows t k)) := by
    intro ks
    induction ks with
    | nil => intro _; rfl
    | cons k ks ih =>
      intro hk
      simp only [List.flatMap_cons]
      rw [ih fun k' hk' => hk k' (List.mem_cons_of_mem k hk')]
      congr 1
      unfold groupRecs groupMatch
      rw [rfEmpty_sources_eq (hk k (List.mem_cons_self k ks)) appRfT slRfT]
  exact aux (groupKeys t) h

theorem claim_C8_witness :
    (∀ k ∈ groupKeys tScenA, rfSourceRows (groupRows tScenA k) = []) ∧
      pipelineRecs appRfT tScenA = pipelineRecs slRfT tScenA :=
  ⟨of_decide_eq_true (by with_unfolding_all rfl),
    claim_C8 tScenA (of_decide_eq_true (by with_unfolding_all rfl))⟩

/-! ### C9 — the per-recommendation stock cap is not cumulative -/

/-- Site A: RF, stock 5, pending 100, safety 0, below the group maximum in
effective sales, so slRfT gives Transferable Qty 105 > net stock 5. -/
def rowC9A : Row := ⟨"ART", "OM1", "A", "RF", 5, 100, 0, 1, 0, "", ""⟩

def rowC9B : Row := ⟨"ART", "OM1", "B", "RF", 0, 0, 5, 10, 0, "", ""⟩

def rowC9C : Row := ⟨"ART", "OM1", "C", "RF", 0, 0, 5, 7, 0, "", ""⟩

def tC9 : List Row := [rowC9A, rowC9B, rowC9C]

/-- C9: on `tC9` the single source site A appears in two recommendations
of one group, each individually within its original net stock 5, while
their sum 10 exceeds it — possible because A's Transferable Qty 105 is
computed from stock + pending. -/
theorem claim_C9 :
    slRfT rowC9A = 105 ∧ origStock tC9 "A" = 5 ∧
      pipelineRecs slRfT tC9 =
        [⟨"ART", "", "OM1", "A", "B", 5, ""⟩, ⟨"ART", "", "OM1", "A", "C", 5, ""⟩] ∧
      sentQty "A" (pipelineRecs slRfT tC9) = 10 ∧
      ((pipelineRecs slRfT tC9).all fun tr => tr.qty ≤ origStock tC9 "A") = true ∧
      (10 : ℤ) > 5 :=
  of_decide_eq_true (by with_unfolding_all rfl)

/-! ### C10 — fractional RF budgets: truncated emission, untruncated decrement -/

/-- Site A: RF, stock 3, pending 4, safety 0: appRfT = min(7, 7·(1/5)) = 7/5. -/
def rowC10A : Row := ⟨"ART", "OM1", "A", "RF", 3, 4, 0, 1, 0, "", ""⟩

def rowC10B : Row := ⟨"ART", "OM1", "B", "RF", 0, 0, 5, 10, 0, "", ""⟩

def tC10 : List Row := [rowC10A, rowC10B]

/-- C10: in the capped variant the RF source's Transferable Qty is the
non-integral 7/5; the emitted quantity is int(7/5) = 1 while destination
B's Needed Qty drops from 5 to 18/5, i.e. by 7/5 — strictly more than the
1 unit actually recommended to it. -/
theorem claim_C10 :
    appRfT rowC10A = 7 / 5 ∧ (appRfT rowC10A).den ≠ 1 ∧
      (dests tC10).map Cand.qty = [5] ∧
      (groupMatch appRfT tC10).2 = [⟨"ART", "", "OM1", "A", "B", 1, ""⟩] ∧
      (groupMatch appRfT tC10).1.map Cand.qty = [18 / 5] ∧
      (5 : ℚ) - 18 / 5 > 1 :=
  of_decide_eq_true (by with_unfolding_all rfl)

/-! ### C6 — the per-RP-Type summary and the site merge -/

theorem find?_eq_head_filter {α : Type} (l : List α) (p : α → Bool) :
    l.find? p = (l.filter p).head? := by
  induction l with
  | nil => rfl
  | cons a l ih =>
    by_cases h : p a = true
    · rw [List.find?_cons_of_pos _ h, List.filter_cons_of_pos h]
      rfl
    · rw [List.find?_cons_of_neg _ h, List.filter_cons_of_neg h]
      exact ih

theorem mergedRP_cons {t : List Row} {tr : TransferRec} {a : Row}
    (ha : t.filter (fun row => row.site = tr.transferSite) = [a]) (rs : List TransferRec) :
    mergedRP t (tr :: rs) = (tr, a.rpType) :: mergedRP t rs := by
  unfold mergedRP
  rw [List.flatMap_cons, ha]
  rfl

theorem rpOfSite_of_filter {t : List Row} {tr : TransferRec} {a : Row}
    (ha : t.filter (fun row => row.site = tr.transferSite) = [a]) :
    rpOfSite t tr.transferSite = some a.rpType := by
  unfold rpOfSite
  rw [find?_eq_head_filter, ha]
  rfl

/-- C6 (amended): the per-RP-Type summary is correct exactly when every
recommendation's Transfer Site matches a single row of the normalized
table: then `recommendation_count` counts the recommendations whose
transfer site carries that RP type and `total_qty` sums their quantities.
(The merge joins against the whole table, so a site occurring in several
rows — the same site under several articles — duplicates its
recommendations in the summary; see the counterexample.) -/
theorem claim_C6 (t : List Row) (rs : List TransferRec)
    (h : ∀ tr ∈ rs, (t.filter (fun row => row.site = tr.transferSite)).length = 1)
    (ty : String) :
    rpCount t rs ty = claimedCount t rs ty ∧ rpQty t rs ty = claimedQty t rs ty := by
  induction rs with
  | nil => exact ⟨rfl, rfl⟩
  | cons tr rs ih =>
    obtain ⟨a, ha⟩ := List.length_eq_one.mp (h tr (List.mem_cons_self tr rs))
    have hfind := rpOfSite_of_filter ha
    have ih2 := ih fun tr' htr' => h tr' (List.mem_cons_of_mem tr htr')
    have hcnt : rpCount t (tr :: rs) ty =
        (if a.rpType = ty then 1 else 0) + rpCount t rs ty := by
      unfold rpCount
      rw [mergedRP_cons ha, List.filter_cons]
      by_cases hty : a.rpType = ty
      · rw [if_pos (by simpa using hty), if_pos hty, List.length_cons]
        omega
      · rw [if_neg (by simpa using hty), if_neg hty]
        omega
    have hqty : rpQty t (tr :: rs) ty =
        (if a.rpType = ty then tr.qty else 0) + rpQty t rs ty := by
      unfold rpQty
      rw [mergedRP_cons ha, List.filter_cons]
      by_cases hty : a.rpType = ty
      · rw [if_pos (by simpa using hty), if_pos hty, List.map_cons, List.sum_cons]
      · rw [if_neg (by simpa using hty), if_neg hty, zero_add]
    have hccnt : claimedCount t (tr :: rs) ty =
        (if a.rpType = ty then 1 else 0) + claimedCount t rs ty := by
      unfold claimedCount
      rw [List.filter_cons]
      by_cases hty : a.rpType = ty
      · rw [if_pos (by simp [hfind, hty]), if_pos hty, List.length_cons]
        omega
      · rw [if_neg (by simp [hfind, hty]), if_neg hty]
        omega
    have hcqty : claimedQty t (tr :: rs) ty =
        (if a.rpType = ty then tr.qty else 0) + claimedQty t rs ty := by
      unfold claimedQty
      rw [List.filter_cons]
      by_cases hty : a.rpType = ty
      · rw [if_pos (by simp [hfind, hty]), if_pos hty, List.map_cons, List.sum_cons]
      · rw [if_neg (by simp [hfind, hty]), if_neg hty, zero_add]
    rw [hcnt, hqty, hccnt, hcqty, ih2.1, ih2.2]
    exact ⟨rfl, rfl⟩

theorem claim_C6_witness :
    (∀ tr ∈ emittedRecs slRfT tScenA,
        (tScenA.filter (fun row => row.site = tr.transferSite)).length = 1) ∧
      rpCount tScenA (emittedRecs slRfT tScenA) "ND" =
          claimedCount tScenA (emittedRecs slRfT tScenA) "ND" ∧
        rpQty tScenA (emittedRecs slRfT tScenA) "ND" =
          claimedQty tScenA (emittedRecs slRfT tScenA) "ND" :=
  ⟨of_decide_eq_true (by with_unfolding_all rfl),
    claim_C6 tScenA (emittedRecs slRfT tScenA)
      (of_decide_eq_true (by with_unfolding_all rfl)) "ND"⟩

/-- Two articles share site S under one OM; S sources a transfer within
article A1 only, but the summary merge matches both S rows of the table. -/
def rowC6S1 : Row := ⟨"A1", "O", "S", "RF", 4, 0, 1, 1, 0, "", ""⟩

def rowC6D : Row := ⟨"A1", "O", "D", "RF", 0, 0, 3, 9, 0, "", ""⟩

def rowC6S2 : Row := ⟨"A2", "O", "S", "RF", 7, 0, 2, 0, 0, "", ""⟩

def tC6 : List Row := [rowC6S1, rowC6D, rowC6S2]

/-- C6 counterexample: `tC6` produces exactly one recommendation (S → D in
article A1), but the left merge matches the transfer site S against both
of its table rows, so the RF `recommendation_count` is 2, not 1. -/
theorem claim_C6_cex :
    rpCount tC6 (emittedRecs slRfT tC6) "RF" ≠
      claimedCount tC6 (emittedRecs slRfT tC6) "RF" :=
  of_decide_eq_true (by with_unfolding_all rfl)

/-! ### On C5 (stability of the priority sort)

The lists handed to `sort_values(by='Priority')` are already in ascending
priority order — the priority-1 block precedes the priority-2 block — as
the following observations record.  Whether the *library* sort preserves
the relative order of equal-priority candidates is a property of pandas'
default quicksort (documented as not stable), not of this repository's
code, so claim C5 itself is settled neither way here. -/

theorem ndCands_priority {g : List Row} {c : Cand} (h : c ∈ ndCands g) : c.priority = 1 := by
  obtain ⟨r, _, rfl⟩ := List.mem_map.mp h
  rfl

theorem rfCands_priority {rfT : Row → ℚ} {g : List Row} {c : Cand}
    (h : c ∈ rfCands rfT g) : c.priority = 2 := by
  obtain ⟨r, _, rfl⟩ := List.mem_map.mp h
  rfl

theorem urgentCands_priority {g : List Row} {c : Cand} (h : c ∈ urgentCands g) :
    c.priority = 1 := by
  obtain ⟨r, _, rfl⟩ := List.mem_map.mp h
  rfl

theorem potentialCands_priority {g : List Row} {c : Cand} (h : c ∈ potentialCands g) :
    c.priority = 2 := by
  obtain ⟨r, _, rfl⟩ := List.mem_map.mp h
  rfl

/-- The concatenated source candidate list is already sorted by ascending
priority before `sort_values` ever runs. -/
theorem sources_concat_sorted (rfT : Row → ℚ) (g : List Row) :
    (ndCands g ++ rfCands rfT g).Pairwise candLe := by
  apply List.pairwise_append.mpr
  refine ⟨?_, ?_, ?_⟩
  · apply List.pairwise_of_forall_mem_list
    intro a ha b hb
    unfold candLe
    rw [ndCands_priority ha, ndCands_priority hb]
  · apply List.pairwise_of_forall_mem_list
    intro a ha b hb
    unfold candLe
    rw [rfCands_priority ha, rfCands_priority hb]
  · intro a ha b hb
    unfold candLe
    rw [ndCands_priority ha, rfCands_priority hb]
    omega

/-- The concatenated destination candidate list is already sorted by
ascending priority before `sort_values` ever runs. -/
theorem dests_concat_sorted (g : List Row) :
    (urgentCands g ++ potentialCands g).Pairwise candLe := by
  apply List.pairwise_append.mpr
  refine ⟨?_, ?_, ?_⟩
  · apply List.pairwise_of_forall_mem_list
    intro a ha b hb
    unfold candLe
    rw [urgentCands_priority ha, urgentCands_priority hb]
  · apply List.pairwise_of_forall_mem_list
    intro a ha b hb
    unfold candLe
    rw [potentialCands_priority ha, potentialCands_priority hb]
  · intro a ha b hb
    unfold candLe
    rw [urgentCands_priority ha, potentialCands_priority hb]
    omega

end Realloc
